import Mathlib

/-!
# Verification of the Michael-Scott MPMC queue core (src/src/async.rs)

This file gives a shallow embedding of the lock-free queue in
`src/src/async.rs` and proves the specified properties about it.

Modelling conventions:

* The node heap is an append-only list `nodes : List (Node T)`; a heap
  address is an index into that list.  `defer_free` only *schedules*
  reclamation (the SMR collaborator is out of scope), so logically freed
  nodes simply remain in the heap, matching the fact that the core never
  frees synchronously.
* A raw pointer `*mut Node<T>` is modelled as `Option Nat`: `none` is the
  null pointer, `some a` points at heap address `a`.
* A node payload is `Option T`: `none` models the `mem::uninitialized()`
  payload of a sentinel, `some v` a payload written by `try_send`.
* Executions are sequential: each atomic operation of one call runs without
  interference, so a strong CAS whose expected value was just loaded always
  succeeds.  A *weak* CAS may additionally fail spuriously
  (`compare_exchange_weak` semantics); this is modelled by an oracle
  `spur : List Bool`, one entry consumed per weak CAS executed, `true`
  meaning "this weak CAS fails spuriously" (the witnessed current value it
  reports then equals the expected value).
* Loops carry fuel; exhausted fuel yields the distinguished outcome `spin`.
  Dereferencing a null or dangling pointer yields the distinguished outcome
  `nullDeref` (undefined behavior in the Rust source).
* `Instant` is modelled as `Nat`; each call of `Instant::now()` inside
  `recv_until` consumes the next element of a clock trace `nows : List Nat`.
-/

set_option maxHeartbeats 1000000

namespace Crossbeam

/-- A single node in a queue (src/src/async.rs, lines 33-39): the payload and
the atomic pointer to the next node.  `value = none` models an uninitialized
payload (only ever the case for sentinels), `next = none` a null pointer. -/
structure Node (T : Type) where
  value : Option T
  next : Option Nat
  deriving DecidableEq

/-- The lock-free queue (src/src/async.rs, lines 41-58): `head` and `tail`
are heap addresses of nodes, `closed` is the disconnect flag.  The padding
fields and the wait-queue handle carry no queue logic and are not part of
the state; wake signals are modelled as emitted events instead. -/
structure Queue (T : Type) where
  nodes : List (Node T)
  head : Nat
  tail : Nat
  closed : Bool
  deriving DecidableEq

/-- Error type of `try_send` (the repository's `TrySendError`). -/
inductive TrySendError (T : Type) where
  | Full (v : T)
  | Disconnected (v : T)
  deriving DecidableEq

/-- Error type of `try_recv` (the repository's `TryRecvError`). -/
inductive TryRecvError where
  | Empty
  | Disconnected
  deriving DecidableEq

/-- Error type of `send_until` (the repository's `SendTimeoutError`). -/
inductive SendTimeoutError (T : Type) where
  | Timeout (v : T)
  | Disconnected (v : T)
  deriving DecidableEq

/-- Error type of `recv_until` (the repository's `RecvTimeoutError`). -/
inductive RecvTimeoutError where
  | Timeout
  | Disconnected
  deriving DecidableEq

/-- Signals sent to the wait-queue collaborator (`Blocking`). -/
inductive WakeEvent where
  | wakeOne
  | wakeAll
  deriving DecidableEq

deriving instance DecidableEq for Except

variable {T : Type}

/-- `Queue::new` (src/src/async.rs, lines 64-91): a single sentinel node with
uninitialized payload and null successor; `head` and `tail` both point at it;
`closed` starts false. -/
def Queue.new : Queue T :=
  { nodes := [{ value := none, next := none }], head := 0, tail := 0, closed := false }

/-- Outcome of one `try_send` call: `ret q r` is a normal return with
post-state `q`, `nullDeref` marks a null/dangling pointer dereference,
`spin` marks fuel exhaustion of the CAS loop. -/
inductive SendOut (T : Type) where
  | ret (q : Queue T) (r : Except (TrySendError T) Unit)
  | nullDeref
  | spin
  deriving DecidableEq

/-- The CAS loop of `try_send` (src/src/async.rs, lines 103-139).
Arguments: queue state, spurious-failure oracle, address `a` of the new node
(the candidate `node`), the local variable `tail` (a pointer), fuel.

Each iteration dereferences the local `tail` pointer and loads the successor
of that node:

* successor null: weak owned CAS installing `a` into `t.next`.  On success
  the node is linked, the queue tail is advanced by a best-effort strong CAS
  (`compare_and_swap(tail, node)`), `wake_one` is signalled and the call
  returns `Ok(())`.  On a spurious failure the source executes
  `Err((next, n)) => { tail = next; node = n; }`: the local `tail` is
  overwritten with the witnessed current value of `t.next`, which for a
  spurious failure equals the expected value, i.e. null.
* successor non-null: the tail fell behind; best-effort weak CAS advances
  the queue tail to the observed successor.  `Ok(()) => tail = next`, and on
  failure `Err(t) => tail = t`, the witnessed current queue tail. -/
def sendLoop : Queue T → List Bool → Nat → Option Nat → Nat → SendOut T
  | _, _, _, _, 0 => .spin
  | q, spur, a, tl, fuel + 1 =>
    match tl with
    | none => .nullDeref
    | some ti =>
      match q.nodes.get? ti with
      | none => .nullDeref
      | some t =>
        match t.next with
        | none =>
          if spur.headD false then
            sendLoop q spur.tail a none fuel
          else
            let q1 : Queue T := { q with nodes := q.nodes.set ti { t with next := some a } }
            let q2 : Queue T := if q1.tail = ti then { q1 with tail := a } else q1
            .ret q2 (.ok ())
        | some nx =>
          if q.tail = ti ∧ spur.headD false = false then
            sendLoop { q with tail := nx } spur.tail a (some nx) fuel
          else
            sendLoop q spur.tail a (some q.tail) fuel

/-- `try_send` (src/src/async.rs, lines 93-140) with an explicit
spurious-failure oracle.  If `closed` is observed, fail immediately with
`Disconnected(value)` before any allocation.  Otherwise allocate the new
node (at the next free heap address) and run the CAS loop starting from the
loaded queue tail. -/
def Queue.try_sendW (q : Queue T) (spur : List Bool) (value : T) : SendOut T :=
  if q.closed then
    .ret q (.error (.Disconnected value))
  else
    let a := q.nodes.length
    let q1 : Queue T := { q with nodes := q.nodes ++ [{ value := some value, next := none }] }
    sendLoop q1 spur a (some q1.tail) (q1.nodes.length + 1)

/-- `try_send` in an execution where no weak CAS fails spuriously. -/
def Queue.try_send (q : Queue T) (value : T) : SendOut T :=
  q.try_sendW [] value

/-- Outcome of one `try_recv` call: `ok q v` returns the payload read from
the promoted node (post-state `q`), `err q e` returns `Err(e)` with
post-state `q`. -/
inductive RecvOut (T : Type) where
  | ok (q : Queue T) (v : Option T)
  | err (q : Queue T) (e : TryRecvError)
  | nullDeref
  | spin
  deriving DecidableEq

/-- The CAS loop of `try_recv` (src/src/async.rs, lines 158-183).
Arguments: queue state, spurious-failure oracle, local `head` pointer
(always non-null: it is loaded from `self.head`), fuel.

Each iteration loads the successor of the sentinel `head` points at.  If it
is null the queue is empty: return `Disconnected` if `closed` is observed,
else `Empty`.  Otherwise weak CAS `self.head` from the current sentinel to
the successor; on success the old sentinel is deferred-freed (it stays in
the heap) and the successor's payload is read out and returned; on failure
`Err(h) => head = h` reloads the witnessed current head and retries. -/
def recvLoop : Queue T → List Bool → Nat → Nat → RecvOut T
  | _, _, _, 0 => .spin
  | q, spur, hd, fuel + 1 =>
    match q.nodes.get? hd with
    | none => .nullDeref
    | some h =>
      match h.next with
      | none => .err q (if q.closed then .Disconnected else .Empty)
      | some nx =>
        match q.nodes.get? nx with
        | none => .nullDeref
        | some n =>
          if q.head = hd ∧ spur.headD false = false then
            .ok { q with head := nx } n.value
          else
            recvLoop q spur.tail q.head fuel

/-- `try_recv` (src/src/async.rs, lines 154-185) with an explicit
spurious-failure oracle. -/
def Queue.try_recvW (q : Queue T) (spur : List Bool) : RecvOut T :=
  recvLoop q spur q.head (q.nodes.length + 1)

/-- `try_recv` in an execution where no weak CAS fails spuriously. -/
def Queue.try_recv (q : Queue T) : RecvOut T :=
  q.try_recvW []

/-- `close` (src/src/async.rs, lines 219-227): swap `closed` to true;
if it was false this call performed the transition: signal `wake_all` and
return true, else return false.  (The `println!` diagnostic is incidental
instrumentation and not modelled.)  Result: post-state, return value,
emitted wake events. -/
def Queue.close (q : Queue T) : Queue T × Bool × List WakeEvent :=
  if q.closed then
    ({ q with closed := true }, false, [])
  else
    ({ q with closed := true }, true, [.wakeAll])

/-- `is_closed` (src/src/async.rs, lines 229-231): a plain load of the flag. -/
def Queue.is_closed (q : Queue T) : Bool :=
  q.closed

/-- Outcome of one `send_until` call.  `unreachableHit` marks execution of
the `unreachable!()` arm (an abort, never a normal return). -/
inductive SendUntilOut (T : Type) where
  | ret (q : Queue T) (r : Except (SendTimeoutError T) Unit)
  | unreachableHit (q : Queue T)
  | nullDeref
  | spin
  deriving DecidableEq

/-- `send_until` (src/src/async.rs, lines 142-152): delegate to `try_send`,
map `Disconnected` into `SendTimeoutError`, hit `unreachable!()` on `Full`.
The deadline argument is ignored by the source (`_: Option<Instant>`). -/
def Queue.send_until (q : Queue T) (value : T) (_deadline : Option Nat) : SendUntilOut T :=
  match q.try_send value with
  | .ret q2 (.ok ()) => .ret q2 (.ok ())
  | .ret q2 (.error (.Disconnected v)) => .ret q2 (.error (.Disconnected v))
  | .ret q2 (.error (.Full _)) => .unreachableHit q2
  | .nullDeref => .nullDeref
  | .spin => .spin

/-- Outcome of one `recv_until` call. -/
inductive RecvUntilOut (T : Type) where
  | ok (q : Queue T) (v : Option T)
  | disconnected (q : Queue T)
  | timeout (q : Queue T)
  | nullDeref
  | spin
  deriving DecidableEq

/-- The loop of `recv_until` (src/src/async.rs, lines 187-217).  State per
iteration: queue, remaining clock trace, the `blocking` flag (false on the
unregistered probe, true on the registered probe); fuel bounds the number of
iterations.  Each iteration: register when `blocking` (wait-queue side
effect only), probe `try_recv`; on `Ok`/`Disconnected` return; on `Empty`,
if `blocking` and a deadline is set, read `Instant::now()` from the clock
trace and return `Timeout` if the deadline has passed, otherwise park (a
no-op for the queue state) — finally flip `blocking` and loop. -/
def recvUntilLoop (deadline : Option Nat) :
    Queue T → List Nat → Bool → Nat → RecvUntilOut T
  | _, _, _, 0 => .spin
  | q, nows, blocking, fuel + 1 =>
    match q.try_recv with
    | .ok q2 v => .ok q2 v
    | .err q2 .Disconnected => .disconnected q2
    | .err q2 .Empty =>
      if blocking then
        match deadline with
        | some e =>
          match nows with
          | [] => .spin
          | now :: rest =>
            if e ≤ now then .timeout q2
            else recvUntilLoop deadline q2 rest (!blocking) fuel
        | none => recvUntilLoop deadline q2 nows (!blocking) fuel
      else recvUntilLoop deadline q2 nows (!blocking) fuel
    | .nullDeref => .nullDeref
    | .spin => .spin

/-- `recv_until` (src/src/async.rs, lines 187-217): run the loop with
`blocking` initially false. -/
def Queue.recv_until (q : Queue T) (deadline : Option Nat) (nows : List Nat)
    (fuel : Nat) : RecvUntilOut T :=
  recvUntilLoop deadline q nows false fuel

/-- One operation of a client trace. -/
inductive Op (T : Type) where
  | send (v : T)
  | recv
  | close
  deriving DecidableEq

/-- Observable result of one trace operation. -/
inductive Out (T : Type) where
  | sendRes (r : Except (TrySendError T) Unit)
  | recvRes (r : Except TryRecvError (Option T))
  | closeRes (b : Bool)
  | stuck
  deriving DecidableEq

/-- Run one operation against the queue (no spurious CAS failures);
`stuck` records the impossible crash outcomes. -/
def Queue.step (q : Queue T) : Op T → Queue T × Out T
  | .send v =>
    match q.try_send v with
    | .ret q2 r => (q2, .sendRes r)
    | .nullDeref => (q, .stuck)
    | .spin => (q, .stuck)
  | .recv =>
    match q.try_recv with
    | .ok q2 v => (q2, .recvRes (.ok v))
    | .err q2 e => (q2, .recvRes (.error e))
    | .nullDeref => (q, .stuck)
    | .spin => (q, .stuck)
  | .close => ((q.close).1, .closeRes (q.close).2.1)

/-- Run a whole trace of operations, logging each operation with its
result. -/
def runTrace : Queue T → List (Op T) → Queue T × List (Op T × Out T)
  | q, [] => (q, [])
  | q, op :: ops =>
    let s := q.step op
    let r := runTrace s.1 ops
    (r.1, (op, s.2) :: r.2)

/-- Values successfully sent, in trace order. -/
def okSends : List (Op T × Out T) → List T
  | [] => []
  | (Op.send v, Out.sendRes (Except.ok ())) :: rest => v :: okSends rest
  | _ :: rest => okSends rest

/-- Values successfully received, in trace order. -/
def okRecvs : List (Op T × Out T) → List (Option T)
  | [] => []
  | (_, Out.recvRes (Except.ok v)) :: rest => v :: okRecvs rest
  | _ :: rest => okRecvs rest

/-- Logical contents of the queue: the payloads of all nodes strictly after
the sentinel `head` points at (heads are sentinels; the front value lives in
the sentinel's successor). -/
def Queue.contents (q : Queue T) : List (Option T) :=
  (q.nodes.drop (q.head + 1)).map (·.value)

/-- The successor pointer of the current sentinel. -/
def Queue.headNext (q : Queue T) : Option Nat :=
  (q.nodes.getD q.head { value := none, next := none }).next

/-- Well-formedness of a (sequentially reachable) queue state: `head` is a
valid address, `tail` is the address of the last node, the nodes form the
chain `0 → 1 → ⋯ → last` with a null terminator, and every node strictly
after the sentinel has an initialized payload. -/
def Queue.Wf (q : Queue T) : Prop :=
  q.head < q.nodes.length ∧
  q.tail + 1 = q.nodes.length ∧
  ∀ i, i < q.nodes.length →
    ((q.nodes.getD i { value := none, next := none }).next =
      if i + 1 < q.nodes.length then some (i + 1) else none) ∧
    (q.head < i → ((q.nodes.getD i { value := none, next := none }).value).isSome = true)

instance (q : Queue T) : Decidable q.Wf := by
  unfold Queue.Wf
  exact inferInstance

/-- A concrete one-element open queue reached by `try_send 5` on a fresh
queue: sentinel at address 0, payload node at address 1. -/
def Q1 : Queue Nat :=
  { nodes := [{ value := none, next := some 1 }, { value := some 5, next := none }],
    head := 0, tail := 1, closed := false }

/-- A concrete closed empty queue. -/
def Qc : Queue Nat :=
  { nodes := [{ value := none, next := none }], head := 0, tail := 0, closed := true }

/-! ## List helper lemmas -/

theorem set_getD_self {α : Type} (l : List α) (i : Nat) (d : α) (h : i < l.length) :
    l.set i (l.getD i d) = l := by
  induction l generalizing i with
  | nil => simp at h
  | cons x xs ih =>
    cases i with
    | zero => rfl
    | succ j => simpa using ih j (by simpa using h)

theorem drop_cons_get? {α : Type} (l : List α) (n : Nat) (x : α) (xs : List α)
    (h : l.drop n = x :: xs) : l.get? n = some x := by
  induction l generalizing n with
  | nil => simp at h
  | cons y ys ih =>
    cases n with
    | zero =>
      simp only [List.drop_zero] at h
      simp [h]
    | succ m => simpa using ih m (by simpa using h)

theorem get?_eq_getD {α : Type} (l : List α) (d : α) (i : Nat) (h : i < l.length) :
    l.get? i = some (l.getD i d) := by
  induction l generalizing i with
  | nil => simp at h
  | cons x xs ih =>
    cases i with
    | zero => rfl
    | succ j => simpa using ih j (by simpa using h)

theorem getD_set_self {α : Type} (l : List α) (i : Nat) (a d : α) (h : i < l.length) :
    (l.set i a).getD i d = a := by
  induction l generalizing i with
  | nil => simp at h
  | cons x xs ih =>
    cases i with
    | zero => rfl
    | succ j => simpa using ih j (by simpa using h)

theorem getD_set_ne {α : Type} (l : List α) (i j : Nat) (a d : α) (h : i ≠ j) :
    (l.set i a).getD j d = l.getD j d := by
  induction l generalizing i j with
  | nil => rfl
  | cons x xs ih =>
    cases i with
    | zero => cases j with
      | zero => exact absurd rfl h
      | succ m => rfl
    | succ k => cases j with
      | zero => rfl
      | succ m => simpa using ih k m (by omega)

theorem getD_append_of_lt {α : Type} (l₁ l₂ : List α) (i : Nat) (d : α) (h : i < l₁.length) :
    (l₁ ++ l₂).getD i d = l₁.getD i d := by
  induction l₁ generalizing i with
  | nil => simp at h
  | cons x xs ih =>
    cases i with
    | zero => rfl
    | succ j => simpa using ih j (by simpa using h)

theorem getD_snoc_length {α : Type} (l : List α) (x d : α) :
    (l ++ [x]).getD l.length d = x := by
  induction l with
  | nil => rfl
  | cons y ys ih => simpa using ih

theorem getD_map_comm {α β : Type} (f : α → β) (l : List α) (d : α) (i : Nat) :
    (l.map f).getD i (f d) = f (l.getD i d) := by
  induction l generalizing i with
  | nil => rfl
  | cons x xs ih =>
    cases i with
    | zero => rfl
    | succ j => simpa using ih j

/-! ## Basic facts about the embedded operations -/

/-- The fresh queue is well formed. -/
theorem wf_new : (Queue.new : Queue T).Wf := by
  refine ⟨by simp [Queue.new], by simp [Queue.new], ?_⟩
  intro i hi
  have hi0 : i = 0 := by simpa [Queue.new] using hi
  subst hi0
  simp [Queue.new]

/-- The fresh queue holds no values. -/
theorem contents_new : (Queue.new : Queue T).contents = [] := rfl

/-- Both branches of `close` produce the same queue state: `closed := true`. -/
theorem close_fst (q : Queue T) : (q.close).1 = { q with closed := true } := by
  unfold Queue.close
  split <;> rfl

/-- Closing does not touch the node chain, head or tail, hence preserves
well-formedness. -/
theorem wf_close (q : Queue T) (hwf : q.Wf) : ((q.close).1).Wf := by
  rw [close_fst]
  exact hwf

/-- Closing preserves the logical contents. -/
theorem contents_close (q : Queue T) : ((q.close).1).contents = q.contents := by
  rw [close_fst]
  rfl

/-- `try_send` on a closed queue fails immediately with `Disconnected`,
returning the value, with the state untouched — for every oracle. -/
theorem try_sendW_closed (q : Queue T) (spur : List Bool) (v : T) (hcl : q.closed = true) :
    q.try_sendW spur v = .ret q (.error (.Disconnected v)) := by
  simp [Queue.try_sendW, hcl]

/-- One successful iteration of the send loop: the local tail points at the
last node (null successor) and the queue tail agrees, so the weak CAS links
the new node and the strong CAS advances the tail. -/
theorem sendLoop_install (q : Queue T) (a ti : Nat) (t : Node T) (fuel : Nat)
    (hget : q.nodes.get? ti = some t) (hnext : t.next = none) (htail : q.tail = ti) :
    sendLoop q [] a (some ti) (fuel + 1) =
      .ret { q with nodes := q.nodes.set ti { t with next := some a }, tail := a }
        (.ok ()) := by
  rw [List.get?_eq_getElem?] at hget
  simp [sendLoop, hget, hnext, htail]

/-- The empty case of the receive loop: the sentinel's successor is null. -/
theorem recvLoop_empty (q : Queue T) (spur : List Bool) (hd : Nat) (h : Node T) (fuel : Nat)
    (hget : q.nodes.get? hd = some h) (hnext : h.next = none) :
    recvLoop q spur hd (fuel + 1) = .err q (if q.closed then .Disconnected else .Empty) := by
  rw [List.get?_eq_getElem?] at hget
  simp [recvLoop, hget, hnext]

/-- One successful iteration of the receive loop: the head CAS promotes the
successor to sentinel and its payload is read out. -/
theorem recvLoop_pop (q : Queue T) (hd nx : Nat) (h n : Node T) (fuel : Nat)
    (hget : q.nodes.get? hd = some h) (hnext : h.next = some nx)
    (hn : q.nodes.get? nx = some n) (hhd : q.head = hd) :
    recvLoop q [] hd (fuel + 1) = .ok { q with head := nx } n.value := by
  rw [List.get?_eq_getElem?] at hget
  rw [List.get?_eq_getElem?] at hn
  simp [recvLoop, hget, hnext, hn, hhd]

/-- `try_send` on an open well-formed queue: the loop terminates in one
iteration, the value is linked at the end of the chain, the tail advances,
and the call returns `Ok(())`; the logical contents gain the value at the
back. -/
theorem try_send_open (q : Queue T) (v : T) (hwf : q.Wf) (hcl : q.closed = false) :
    ∃ q2 : Queue T, q.try_send v = .ret q2 (.ok ()) ∧ q2.Wf ∧
      q2.contents = q.contents ++ [some v] ∧ q2.closed = false ∧ q2.head = q.head := by
  obtain ⟨hhead, htail, hchain⟩ := hwf
  have htlt : q.tail < q.nodes.length := by omega
  have hget : (q.nodes ++ [({ value := some v, next := none } : Node T)]).get? q.tail
      = some (q.nodes.getD q.tail { value := none, next := none }) := by
    rw [List.get?_append htlt]
    exact get?_eq_getD q.nodes _ q.tail htlt
  have hnextt : (q.nodes.getD q.tail { value := none, next := none }).next = none := by
    rw [(hchain q.tail htlt).1, if_neg (by omega)]
  have hstep := sendLoop_install
    { q with nodes := q.nodes ++ [{ value := some v, next := none }] }
    q.nodes.length q.tail
    (q.nodes.getD q.tail { value := none, next := none })
    (q.nodes ++ [({ value := some v, next := none } : Node T)]).length
    hget hnextt rfl
  have hts : q.try_send v =
      sendLoop { q with nodes := q.nodes ++ [{ value := some v, next := none }] } []
        q.nodes.length (some q.tail)
        ((q.nodes ++ [({ value := some v, next := none } : Node T)]).length + 1) := by
    simp only [Queue.try_send, Queue.try_sendW, hcl, Bool.false_eq_true, if_false]
  refine ⟨_, hts.trans hstep, ⟨?_, ?_, ?_⟩, ?_, hcl, rfl⟩
  · simpa using hhead.trans (Nat.lt_succ_self _)
  · simp
  · intro i hi
    simp only [List.length_set, List.length_append, List.length_cons, List.length_nil] at hi ⊢
    rcases Nat.lt_or_ge i q.nodes.length with hilt | hige
    · rcases eq_or_ne i q.tail with hieq | hine
      · subst hieq
        rw [getD_set_self _ _ _ _
          (by simp only [List.length_append, List.length_cons, List.length_nil]; omega)]
        constructor
        · rw [if_pos (by omega)]
          simp
          omega
        · intro hlt
          exact (hchain q.tail htlt).2 hlt
      · rw [getD_set_ne _ _ _ _ _ (fun hh => hine hh.symm),
          getD_append_of_lt _ _ _ _ hilt]
        have h3 := hchain i hilt
        constructor
        · rw [h3.1]
          have hi1 : i + 1 < q.nodes.length := by omega
          rw [if_pos hi1, if_pos (by omega)]
        · exact h3.2
    · have hieq : i = q.nodes.length := by omega
      subst hieq
      rw [getD_set_ne _ _ _ _ _ (by omega), getD_snoc_length]
      constructor
      · rw [if_neg (by omega)]
      · intro _
        rfl
  · show (List.map _ (List.drop (q.head + 1) _)) = _
    rw [List.map_drop]
    have hmap : (((q.nodes ++ [({ value := some v, next := none } : Node T)]).set q.tail
        { value := (q.nodes.getD q.tail { value := none, next := none }).value,
          next := some q.nodes.length }).map (·.value))
        = (q.nodes.map (·.value)) ++ [some v] := by
      rw [List.map_set]
      have hv : ((q.nodes ++ [({ value := some v, next := none } : Node T)]).map
          (·.value)).getD q.tail none
          = (q.nodes.getD q.tail { value := none, next := none }).value := by
        have := getD_map_comm (·.value) (q.nodes ++ [({ value := some v, next := none } : Node T)])
          { value := none, next := none } q.tail
        simp only at this
        rw [this, getD_append_of_lt _ _ _ _ htlt]
      rw [← hv, set_getD_self _ _ _ (by simp only [List.length_map, List.length_append, List.length_cons, List.length_nil]; omega), List.map_append]
      rfl
    rw [hmap, List.drop_append_of_le_length (by simpa using hhead),
      ← List.map_drop]
    rfl

/-- Under well-formedness, the sentinel's successor is null exactly when the
queue holds no values. -/
theorem headNext_none_iff (q : Queue T) (hwf : q.Wf) :
    q.headNext = none ↔ q.contents = [] := by
  obtain ⟨hhead, htail, hchain⟩ := hwf
  have h3 := (hchain q.head hhead).1
  unfold Queue.headNext Queue.contents
  rw [h3]
  by_cases hlt : q.head + 1 < q.nodes.length
  · rw [if_pos hlt]
    constructor
    · intro h
      cases h
    · intro h
      exfalso
      have hd : q.nodes.drop (q.head + 1) = [] := by
        cases hdr : q.nodes.drop (q.head + 1) with
        | nil => rfl
        | cons x xs =>
          rw [hdr] at h
          cases h
      have := List.drop_eq_nil_iff.mp hd
      omega
  · rw [if_neg hlt]
    have hle : q.nodes.length ≤ q.head + 1 := by omega
    simp [List.drop_eq_nil_of_le hle]

/-- `try_recv` on a well-formed queue whose sentinel successor is null:
return `Disconnected` when closed, `Empty` otherwise, with the state
untouched — for every oracle. -/
theorem try_recv_empty (q : Queue T) (spur : List Bool) (hwf : q.Wf)
    (hn : q.headNext = none) :
    q.try_recvW spur = .err q (if q.closed then .Disconnected else .Empty) := by
  obtain ⟨hhead, htail, hchain⟩ := hwf
  have hget : q.nodes.get? q.head
      = some (q.nodes.getD q.head { value := none, next := none }) :=
    get?_eq_getD q.nodes _ q.head hhead
  exact recvLoop_empty q spur q.head _ q.nodes.length hget hn

/-- `try_recv` on a well-formed queue holding at least one value: the head
CAS promotes the sentinel's successor and its payload, the front of the
logical contents, is returned; the new state is well formed and holds the
rest. -/
theorem try_recv_filled (q : Queue T) (v : Option T) (rest : List (Option T)) (hwf : q.Wf)
    (hc : q.contents = v :: rest) :
    q.try_recv = .ok { q with head := q.head + 1 } v ∧
    ({ q with head := q.head + 1 } : Queue T).Wf ∧
    ({ q with head := q.head + 1 } : Queue T).contents = rest ∧
    v.isSome = true := by
  obtain ⟨hhead, htail, hchain⟩ := hwf
  obtain ⟨x, xs, hdrop⟩ : ∃ x xs, q.nodes.drop (q.head + 1) = x :: xs := by
    cases hdr : q.nodes.drop (q.head + 1) with
    | nil =>
      rw [Queue.contents, hdr] at hc
      cases hc
    | cons x xs => exact ⟨x, xs, rfl⟩
  have hxval : x.value = v ∧ xs.map (·.value) = rest := by
    rw [Queue.contents, hdrop] at hc
    simpa using hc
  have hlt : q.head + 1 < q.nodes.length := by
    have hlen := congrArg List.length hdrop
    simp only [List.length_drop, List.length_cons] at hlen
    omega
  have hget : q.nodes.get? q.head
      = some (q.nodes.getD q.head { value := none, next := none }) :=
    get?_eq_getD q.nodes _ q.head hhead
  have hnext : (q.nodes.getD q.head { value := none, next := none }).next
      = some (q.head + 1) := by
    rw [(hchain q.head hhead).1, if_pos hlt]
  have hx : q.nodes.get? (q.head + 1) = some x := drop_cons_get? _ _ _ _ hdrop
  have hxe : x = q.nodes.getD (q.head + 1) { value := none, next := none } := by
    have h1 := get?_eq_getD q.nodes { value := none, next := none } (q.head + 1) hlt
    rw [hx] at h1
    exact Option.some.inj h1
  have hpop := recvLoop_pop q q.head (q.head + 1)
    (q.nodes.getD q.head { value := none, next := none }) x q.nodes.length hget hnext hx rfl
  refine ⟨?_, ⟨hlt, htail, ?_⟩, ?_, ?_⟩
  · show recvLoop q [] q.head (q.nodes.length + 1) = _
    rw [hpop, hxval.1]
  · intro i hi
    have hi2 : i < q.nodes.length := hi
    refine ⟨(hchain i hi2).1, fun h => (hchain i hi2).2 ?_⟩
    have h2 : q.head + 1 < i := h
    omega
  · show (q.nodes.drop (q.head + 1 + 1)).map (·.value) = rest
    have hdd : q.nodes.drop (q.head + 1 + 1) = xs := by
      rw [← List.drop_drop 1 (q.head + 1) q.nodes, hdrop]
      rfl
    rw [hdd, hxval.2]
  · rw [← hxval.1, hxe]
    exact (hchain (q.head + 1) hlt).2 (Nat.lt_succ_self q.head)

/-- Whenever the receive loop returns an error, the queue is returned
untouched and the error is `Disconnected` exactly when `closed` holds. -/
theorem recvLoop_err_inv (spur : List Bool) (q : Queue T) (hd fuel : Nat)
    (q2 : Queue T) (e : TryRecvError) (h : recvLoop q spur hd fuel = .err q2 e) :
    q2 = q ∧ e = (if q.closed then .Disconnected else .Empty) := by
  induction fuel generalizing spur hd with
  | zero => simp [recvLoop] at h
  | succ fuel ih =>
    simp only [recvLoop] at h
    split at h
    · cases h
    · split at h
      · injection h with h1 h2
        exact ⟨h1.symm, h2.symm⟩
      · split at h
        · cases h
        · split at h
          · cases h
          · exact ih spur.tail q.head h

/-- Whenever the receive loop pops a value, only `head` moves: the node
chain, tail and `closed` flag are untouched. -/
theorem recvLoop_ok_fields (spur : List Bool) (q : Queue T) (hd fuel : Nat)
    (q2 : Queue T) (v : Option T) (h : recvLoop q spur hd fuel = .ok q2 v) :
    q2.nodes = q.nodes ∧ q2.tail = q.tail ∧ q2.closed = q.closed := by
  induction fuel generalizing spur hd with
  | zero => simp [recvLoop] at h
  | succ fuel ih =>
    simp only [recvLoop] at h
    split at h
    · cases h
    · split at h
      · cases h
      · split at h
        · cases h
        · split at h
          · injection h with h1 h2
            subst h1
            exact ⟨rfl, rfl, rfl⟩
          · exact ih spur.tail q.head h

/-- `try_recv` errors leave the whole state unchanged, for every oracle. -/
theorem try_recvW_err_state (q : Queue T) (spur : List Bool) (q2 : Queue T)
    (e : TryRecvError) (h : q.try_recvW spur = .err q2 e) : q2 = q :=
  (recvLoop_err_inv spur q q.head (q.nodes.length + 1) q2 e h).1

/-- Whenever the send loop returns, the return value is `Ok(())` and the
`closed` flag and `head` are untouched. -/
theorem sendLoop_ret_inv (spur : List Bool) (q : Queue T) (a : Nat) (tl : Option Nat)
    (fuel : Nat) (q2 : Queue T) (r : Except (TrySendError T) Unit)
    (h : sendLoop q spur a tl fuel = .ret q2 r) :
    r = .ok () ∧ q2.closed = q.closed ∧ q2.head = q.head := by
  induction fuel generalizing spur q tl with
  | zero => simp [sendLoop] at h
  | succ fuel ih =>
    simp only [sendLoop] at h
    split at h
    · cases h
    · split at h
      · cases h
      · split at h
        · split at h
          · exact (ih spur.tail q none h).imp id (fun hh => hh)
          · split at h
            · injection h with h1 h2
              subst h1
              exact ⟨h2.symm, rfl, rfl⟩
            · injection h with h1 h2
              subst h1
              exact ⟨h2.symm, rfl, rfl⟩
        · split at h
          · have := ih spur.tail _ (some _) h
            simpa using this
          · exact ih spur.tail q (some q.tail) h

/-- `try_send` never reports `Full`: the unbounded queue has no capacity
condition, for every oracle. -/
theorem try_sendW_no_full (q : Queue T) (spur : List Bool) (v : T) (q2 : Queue T) (u : T) :
    q.try_sendW spur v ≠ .ret q2 (.error (.Full u)) := by
  intro h
  unfold Queue.try_sendW at h
  by_cases hcl : q.closed
  · rw [if_pos hcl] at h
    injection h with h1 h2
    cases h2
  · rw [if_neg hcl] at h
    obtain ⟨hr, -⟩ := sendLoop_ret_inv _ _ _ _ _ _ _ h
    cases hr

/-- A `try_recv` that reports `Empty` observed `closed = false`. -/
theorem try_recvW_empty_closed_false (q : Queue T) (spur : List Bool) (q2 : Queue T)
    (h : q.try_recvW spur = .err q2 .Empty) : q.closed = false := by
  have h2 := (recvLoop_err_inv spur q q.head (q.nodes.length + 1) q2 _ h).2
  by_cases hcl : q.closed
  · rw [if_pos hcl] at h2
    cases h2
  · simpa using hcl

theorem okSends_cons_send_ok (v : T) (log : List (Op T × Out T)) :
    okSends ((Op.send v, Out.sendRes (Except.ok ())) :: log) = v :: okSends log := rfl

theorem okSends_cons_send_err (v : T) (e : TrySendError T) (log : List (Op T × Out T)) :
    okSends ((Op.send v, Out.sendRes (Except.error e)) :: log) = okSends log := rfl

theorem okSends_cons_recv (r : Except TryRecvError (Option T)) (log : List (Op T × Out T)) :
    okSends ((Op.recv, Out.recvRes r) :: log) = okSends log := rfl

theorem okSends_cons_close (b : Bool) (log : List (Op T × Out T)) :
    okSends ((Op.close, Out.closeRes b) :: log) = okSends log := rfl

theorem okRecvs_cons_recv_ok (v : Option T) (log : List (Op T × Out T)) :
    okRecvs ((Op.recv, Out.recvRes (Except.ok v)) :: log) = v :: okRecvs log := rfl

theorem okRecvs_cons_recv_err (e : TryRecvError) (log : List (Op T × Out T)) :
    okRecvs ((Op.recv, Out.recvRes (Except.error e)) :: log) = okRecvs log := rfl

theorem okRecvs_cons_send (v : T) (r : Except (TrySendError T) Unit) (log : List (Op T × Out T)) :
    okRecvs ((Op.send v, Out.sendRes r) :: log) = okRecvs log := rfl

theorem okRecvs_cons_close (b : Bool) (log : List (Op T × Out T)) :
    okRecvs ((Op.close, Out.closeRes b) :: log) = okRecvs log := rfl

/-- Once closed, one step of any operation leaves the flag set. -/
theorem step_closed (q : Queue T) (op : Op T) (hcl : q.closed = true) :
    ((q.step op).1).closed = true := by
  cases op with
  | send v =>
    have hs : q.try_send v = .ret q (.error (.Disconnected v)) :=
      try_sendW_closed q [] v hcl
    simp [Queue.step, hs, hcl]
  | recv =>
    cases hr : q.try_recv with
    | ok q2 v =>
      have hf := (recvLoop_ok_fields [] q q.head (q.nodes.length + 1) q2 v hr).2.2
      simp [Queue.step, hr, hf, hcl]
    | err q2 e =>
      have hf := (recvLoop_err_inv [] q q.head (q.nodes.length + 1) q2 e hr).1
      simp [Queue.step, hr, hf, hcl]
    | nullDeref => simp [Queue.step, hr, hcl]
    | spin => simp [Queue.step, hr, hcl]
  | close => simp [Queue.step, close_fst]

/-- Once closed, the flag stays set through any further trace. -/
theorem runTrace_closed (ops : List (Op T)) : ∀ q : Queue T, q.closed = true →
    ((runTrace q ops).1).closed = true := by
  induction ops with
  | nil => intro q h; exact h
  | cons op ops ih =>
    intro q h
    simp only [runTrace]
    exact ih _ (step_closed q op h)

/-- The central trace invariant: from any well-formed state, the values
received so far followed by the values still in the queue are exactly the
values that were in the queue initially followed by the values successfully
sent, in order; and well-formedness is preserved. -/
theorem runTrace_spec (ops : List (Op T)) : ∀ q : Queue T, q.Wf →
    ((runTrace q ops).1).Wf ∧
    okRecvs (runTrace q ops).2 ++ ((runTrace q ops).1).contents
      = q.contents ++ (okSends (runTrace q ops).2).map some := by
  induction ops with
  | nil =>
    intro q hwf
    exact ⟨hwf, by simp [runTrace, okSends, okRecvs]⟩
  | cons op ops ih =>
    intro q hwf
    cases op with
    | send v =>
      by_cases hcl : q.closed
      · have hs : q.try_send v = .ret q (.error (.Disconnected v)) :=
          try_sendW_closed q [] v hcl
        have hstep : q.step (.send v) = (q, .sendRes (.error (.Disconnected v))) := by
          simp [Queue.step, hs]
        simp only [runTrace, hstep]
        obtain ⟨h1, h2⟩ := ih q hwf
        exact ⟨h1, by rw [okRecvs_cons_send, okSends_cons_send_err]; exact h2⟩
      · have hb : q.closed = false := by simpa using hcl
        obtain ⟨q2, hs, hwf2, hcont, -, -⟩ := try_send_open q v hwf hb
        have hstep : q.step (.send v) = (q2, .sendRes (.ok ())) := by
          simp [Queue.step, hs]
        simp only [runTrace, hstep]
        obtain ⟨h1, h2⟩ := ih q2 hwf2
        refine ⟨h1, ?_⟩
        rw [okRecvs_cons_send, okSends_cons_send_ok, h2, hcont]
        simp
    | recv =>
      cases hc : q.contents with
      | nil =>
        have hn : q.headNext = none := (headNext_none_iff q hwf).mpr hc
        have he : q.try_recv = .err q (if q.closed then .Disconnected else .Empty) :=
          try_recv_empty q [] hwf hn
        have hstep : q.step Op.recv
            = (q, .recvRes (.error (if q.closed then .Disconnected else .Empty))) := by
          simp [Queue.step, he]
        simp only [runTrace, hstep]
        obtain ⟨h1, h2⟩ := ih q hwf
        exact ⟨h1, by rw [okRecvs_cons_recv_err, okSends_cons_recv]; simpa [hc] using h2⟩
      | cons v rest =>
        obtain ⟨hok, hwf2, hcont2, -⟩ := try_recv_filled q v rest hwf hc
        have hstep : q.step Op.recv = ({ q with head := q.head + 1 }, .recvRes (.ok v)) := by
          simp [Queue.step, hok]
        simp only [runTrace, hstep]
        obtain ⟨h1, h2⟩ := ih _ hwf2
        refine ⟨h1, ?_⟩
        rw [okRecvs_cons_recv_ok, okSends_cons_recv, List.cons_append, h2, hcont2]
        simp
    | close =>
      have hstep : q.step Op.close = ({ q with closed := true }, .closeRes (q.close).2.1) := by
        simp [Queue.step, close_fst]
      simp only [runTrace, hstep]
      have hwf2 : ({ q with closed := true } : Queue T).Wf := hwf
      obtain ⟨h1, h2⟩ := ih _ hwf2
      exact ⟨h1, by rw [okRecvs_cons_close, okSends_cons_close]; exact h2⟩

/-- C1: the queue is FIFO with no loss and no duplication.  For every
sequence of operations run from a fresh queue (each call's effect is atomic,
so a concurrent interleaving of calls is a sequence of calls, and the single
sequential sender subsumes per-producer order), the values returned by the
successful receives are, in order, an initial segment of the values accepted
by the successful sends: hence the receive multiset is a sub-multiset of the
send multiset, no sent value instance is returned by more than one receive,
and a value sent before another is received no later than it. -/
theorem fifo_no_loss_no_dup (ops : List (Op T)) :
    ∃ r : List T,
      okRecvs (runTrace (Queue.new : Queue T) ops).2 = r.map some ∧
      List.IsPrefix r (okSends (runTrace (Queue.new : Queue T) ops).2) ∧
      (r : Multiset T) ≤ (okSends (runTrace (Queue.new : Queue T) ops).2 : Multiset T) := by
  obtain ⟨-, h⟩ := runTrace_spec ops (Queue.new : Queue T) wf_new
  rw [contents_new, List.nil_append] at h
  refine ⟨(okSends (runTrace (Queue.new : Queue T) ops).2).take
    (okRecvs (runTrace (Queue.new : Queue T) ops).2).length, ?_, ?_, ?_⟩
  · rw [List.map_take, ← h, List.take_left]
  · exact ⟨_, List.take_append_drop _ _⟩
  · exact Multiset.coe_le.mpr (List.Sublist.subperm (List.take_sublist _ _))

/-- C2: from a fresh queue, the call sequence try_recv; try_send 5;
try_recv; try_recv; close; try_recv; try_send 7 returns, in order: Empty,
Ok(()), Ok(5), Empty, true, Disconnected, Disconnected(7). -/
theorem concrete_scenario :
    (runTrace (Queue.new : Queue Nat)
        [.recv, .send 5, .recv, .recv, .close, .recv, .send 7]).2
      = [(.recv, .recvRes (.error .Empty)),
         (.send 5, .sendRes (.ok ())),
         (.recv, .recvRes (.ok (some 5))),
         (.recv, .recvRes (.error .Empty)),
         (.close, .closeRes true),
         (.recv, .recvRes (.error .Disconnected)),
         (.send 7, .sendRes (.error (.Disconnected 7)))] := by
  decide

/-- C3: on a well-formed queue, `try_recv` returns an error exactly when the
sentinel's successor is null, and then returns `Disconnected` precisely if
`closed` is observed true, `Empty` otherwise; closing preserves the linked
values, every value linked before the close is still receivable afterwards,
and `Disconnected` is only returned once the queue is observed empty. -/
theorem recv_error_characterisation (q : Queue T) (hwf : q.Wf) :
    ((∃ q2 e, q.try_recv = .err q2 e) ↔ q.headNext = none) ∧
    (q.headNext = none →
      q.try_recv = .err q (if q.closed then .Disconnected else .Empty)) ∧
    (((q.close).1).contents = q.contents) ∧
    (∀ v rest, q.contents = v :: rest →
      ((q.close).1).try_recv = .ok { q with head := q.head + 1, closed := true } v) ∧
    (∀ q2, q.try_recv = .err q2 .Disconnected → q.headNext = none ∧ q.closed = true) := by
  have hA : (∃ q2 e, q.try_recv = .err q2 e) ↔ q.headNext = none := by
    constructor
    · rintro ⟨q2, e, he⟩
      cases hcon : q.contents with
      | nil => exact (headNext_none_iff q hwf).mpr hcon
      | cons v rest =>
        obtain ⟨hok, -, -, -⟩ := try_recv_filled q v rest hwf hcon
        rw [hok] at he
        cases he
    · intro hn
      exact ⟨q, _, try_recv_empty q [] hwf hn⟩
  refine ⟨hA, fun hn => try_recv_empty q [] hwf hn, contents_close q, ?_, ?_⟩
  · intro v rest hc
    have hwfc : ((q.close).1).Wf := wf_close q hwf
    have hcc : ((q.close).1).contents = v :: rest := (contents_close q).trans hc
    obtain ⟨hok, -, -, -⟩ := try_recv_filled ((q.close).1) v rest hwfc hcc
    rw [close_fst] at hok
    rw [close_fst]
    exact hok
  · intro q2 he
    have h2 := (recvLoop_err_inv [] q q.head (q.nodes.length + 1) q2 _ he).2
    refine ⟨hA.mp ⟨q2, _, he⟩, ?_⟩
    by_cases hcl : q.closed
    · exact hcl
    · rw [if_neg hcl] at h2
      cases h2

/-- C3 witness: the characterisation applied to the concrete one-value open
queue; in particular the value 5, linked before closing, is still received
after the close. -/
theorem recv_error_characterisation_witness :
    Q1.Wf ∧
    (((Q1.close).1).try_recv
      = .ok { Q1 with head := Q1.head + 1, closed := true } (some 5)) :=
  ⟨by decide, (recv_error_characterisation Q1 (by decide)).2.2.2.1 (some 5) [] (by decide)⟩

/-- C4: if `closed` is observed at the start of `try_send(v)`, the call
returns `Disconnected(v)` immediately — for every spurious-failure oracle —
with the value handed back unchanged and the returned state literally the
input state: no node is allocated and nothing in the queue is modified. -/
theorem send_after_close (q : Queue T) (v : T) (spur : List Bool) (hcl : q.closed = true) :
    q.try_sendW spur v = .ret q (.error (.Disconnected v)) ∧
    q.try_send v = .ret q (.error (.Disconnected v)) :=
  ⟨try_sendW_closed q spur v hcl, try_sendW_closed q [] v hcl⟩

/-- C4 witness: sending 7 into the concrete closed queue. -/
theorem send_after_close_witness :
    Qc.closed = true ∧
    (Qc.try_sendW [] 7 = .ret Qc (.error (.Disconnected 7)) ∧
     Qc.try_send 7 = .ret Qc (.error (.Disconnected 7))) :=
  ⟨by decide, send_after_close Qc 7 [] (by decide)⟩

/-- C5: `close` returns true exactly when the flag was still false (so a
second close returns false), always leaves the flag set, signals `wake_all`
exactly on the transitioning call (a repeated close signals nothing), and
after a close `is_closed` stays true through every further trace of
operations. -/
theorem close_idempotent_monotonic (q : Queue T) :
    ((q.close).2.1 = !q.closed) ∧
    (((q.close).1).closed = true) ∧
    ((q.close).2.2 = if q.closed then ([] : List WakeEvent) else [.wakeAll]) ∧
    ((((q.close).1).close).2.1 = false) ∧
    ((((q.close).1).close).2.2 = ([] : List WakeEvent)) ∧
    (∀ ops : List (Op T), ((runTrace (q.close).1 ops).1).is_closed = true) := by
  refine ⟨?_, ?_, ?_, ?_, ?_, ?_⟩
  · by_cases hcl : q.closed <;> simp [Queue.close, hcl]
  · rw [close_fst]
  · by_cases hcl : q.closed <;> simp [Queue.close, hcl]
  · rw [close_fst]
    simp [Queue.close]
  · rw [close_fst]
    simp [Queue.close]
  · intro ops
    exact runTrace_closed ops _ (by rw [close_fst])

/-- C6: the code does not retry the same step on a spurious weak-CAS
failure of the install CAS.  The source arm
`Err((next, n)) => { tail = next; node = n; }` overwrites the local `tail`
with the witnessed successor pointer, which on a spurious failure equals
the expected value null, and the next iteration dereferences it: on a fresh
open queue, a single spurious failure of the install CAS drives
`try_send 5` into a null-pointer dereference instead of a retry of the
same step on the same valid tail node. -/
theorem spurious_install_cas_derefs_null :
    (Queue.new : Queue Nat).try_sendW [true] 5 = SendOut.nullDeref := by
  decide

/-- C7: a deadline-bounded `recv_until` returns `Timeout` only when a clock
reading has reached or passed the deadline while the queue was being
observed `Empty` and not closed, and the state returned with `Timeout` is
exactly the input state — head, tail, `closed` and all linked nodes
unchanged. -/
theorem timeout_only_when_empty_open (q q2 : Queue T) (d : Option Nat) (nows : List Nat)
    (b : Bool) (fuel : Nat) (h : recvUntilLoop d q nows b fuel = .timeout q2) :
    q2 = q ∧ q.closed = false ∧ q.try_recv = .err q .Empty ∧
    ∃ e now, d = some e ∧ now ∈ nows ∧ e ≤ now := by
  induction fuel generalizing q nows b with
  | zero => simp [recvUntilLoop] at h
  | succ fuel ih =>
    simp only [recvUntilLoop] at h
    cases hr : q.try_recv with
    | ok q3 v =>
      rw [hr] at h
      simp at h
    | err q3 e =>
      have hq3 : q3 = q := try_recvW_err_state q [] q3 e hr
      rw [hq3] at hr ⊢
      cases e with
      | Disconnected =>
        rw [hr] at h
        simp at h
      | Empty =>
        have hcl : q.closed = false := try_recvW_empty_closed_false q [] q hr
        rw [hr] at h
        cases b with
        | false =>
          simp at h
          obtain ⟨h1, h2, -, hex⟩ := ih q nows true h
          exact ⟨h1, h2, rfl, hex⟩
        | true =>
          cases d with
          | none =>
            simp at h
            obtain ⟨-, -, -, e2, -, hd2, -⟩ := ih q nows false h
            cases hd2
          | some e =>
            cases nows with
            | nil => simp at h
            | cons now rest =>
              simp only [Bool.not_true] at h
              by_cases hle : e ≤ now
              · have h2 : RecvUntilOut.timeout q = RecvUntilOut.timeout q2 := by
                  rw [← h]
                  simp [hle]
                injection h2 with h1
                exact ⟨h1.symm, hcl, rfl, e, now, rfl, List.mem_cons_self _ _, hle⟩
              · have h2 : recvUntilLoop (some e) q rest false fuel
                    = RecvUntilOut.timeout q2 := by
                  rw [← h]
                  simp [hle]
                obtain ⟨h1, h3, -, e2, now2, hd2, hmem, hle2⟩ := ih q rest false h2
                exact ⟨h1, h3, rfl, e2, now2, hd2, List.mem_cons_of_mem _ hmem, hle2⟩
    | nullDeref =>
      rw [hr] at h
      simp at h
    | spin =>
      rw [hr] at h
      simp at h

/-- C7 witness: on a fresh empty open queue with deadline 0 and a clock
reading of 0, the call times out and hands back the unchanged state. -/
theorem timeout_only_when_empty_open_witness :
    (recvUntilLoop (some 0) (Queue.new : Queue Nat) [0] false 2
      = RecvUntilOut.timeout Queue.new) ∧
    ((Queue.new : Queue Nat) = Queue.new ∧ (Queue.new : Queue Nat).closed = false) := by
  have h := timeout_only_when_empty_open (Queue.new : Queue Nat) Queue.new
    (some 0) [0] false 2 (by decide)
  exact ⟨by decide, h.1, h.2.1⟩

/-- C8: `send_until(v, d)` ignores the deadline entirely and behaves as
`try_send(v)` with `Disconnected` mapped into the timeout-error type; the
`Full` branch is unreachable because `try_send` never returns `Full` (for
any oracle), so the `unreachable!()` arm never executes. -/
theorem send_until_degenerates (q : Queue T) (v : T) (d : Option Nat) :
    (∀ d2 : Option Nat, q.send_until v d2 = q.send_until v d) ∧
    (∀ q2 : Queue T, q.send_until v d ≠ .unreachableHit q2) ∧
    (∀ (spur : List Bool) (q2 : Queue T) (u : T),
      q.try_sendW spur v ≠ .ret q2 (.error (.Full u))) ∧
    (∀ q2 : Queue T, q.try_send v = .ret q2 (.ok ()) →
      q.send_until v d = .ret q2 (.ok ())) ∧
    (∀ (q2 : Queue T) (u : T), q.try_send v = .ret q2 (.error (.Disconnected u)) →
      q.send_until v d = .ret q2 (.error (.Disconnected u))) ∧
    (q.try_send v = .nullDeref → q.send_until v d = .nullDeref) ∧
    (q.try_send v = .spin → q.send_until v d = .spin) := by
  refine ⟨fun d2 => rfl, ?_, fun spur q2 u => try_sendW_no_full q spur v q2 u,
    ?_, ?_, ?_, ?_⟩
  · intro q2 hcontra
    unfold Queue.send_until at hcontra
    cases hs : q.try_send v with
    | ret q3 r =>
      cases r with
      | ok u =>
        cases u
        rw [hs] at hcontra
        simp at hcontra
      | error e =>
        cases e with
        | Disconnected u =>
          rw [hs] at hcontra
          simp at hcontra
        | Full u => exact try_sendW_no_full q [] v q3 u hs
    | nullDeref =>
      rw [hs] at hcontra
      simp at hcontra
    | spin =>
      rw [hs] at hcontra
      simp at hcontra
  · intro q2 hok
    unfold Queue.send_until
    rw [hok]
  · intro q2 u hdis
    unfold Queue.send_until
    rw [hdis]
  · intro hnd
    unfold Queue.send_until
    rw [hnd]
  · intro hsp
    unfold Queue.send_until
    rw [hsp]

/-- C8 witness: on a fresh queue, `send_until 5` with no deadline returns
exactly the mapped `try_send` success. -/
theorem send_until_degenerates_witness :
    ((Queue.new : Queue Nat).try_send 5 = .ret Q1 (.ok ())) ∧
    ((Queue.new : Queue Nat).send_until 5 none = .ret Q1 (.ok ())) :=
  ⟨by decide, (send_until_degenerates (Queue.new : Queue Nat) 5 none).2.2.2.1 Q1 (by decide)⟩

/-- C9: a `try_recv` that returns `Empty` or `Disconnected` hands back the
input state itself — head, tail, `closed` and every node's payload and
successor untouched — for every spurious-failure oracle. -/
theorem recv_error_leaves_state (q q2 : Queue T) (spur : List Bool) (e : TryRecvError)
    (h : q.try_recvW spur = .err q2 e) : q2 = q :=
  try_recvW_err_state q spur q2 e h

/-- C9 witness: the closed empty queue, whose `try_recv` reports
`Disconnected` without touching the state. -/
theorem recv_error_leaves_state_witness :
    (Qc.try_recvW [] = .err Qc .Disconnected) ∧ Qc = Qc :=
  ⟨by decide, recv_error_leaves_state Qc Qc [] .Disconnected (by decide)⟩

/-- C10: `recv_until` with a deadline that may already lie in the past (any
deadline, any clock trace) still pops and returns an available value rather
than timing out, because every iteration probes `try_recv` before the
deadline is consulted. -/
theorem expired_deadline_still_receives (q : Queue T) (v : T) (rest : List (Option T))
    (hwf : q.Wf) (hc : q.contents = some v :: rest) (d : Nat) (nows : List Nat)
    (fuel : Nat) :
    q.recv_until (some d) nows (fuel + 1) = .ok { q with head := q.head + 1 } (some v) := by
  obtain ⟨hok, -, -, -⟩ := try_recv_filled q (some v) rest hwf hc
  unfold Queue.recv_until
  simp only [recvUntilLoop, hok]

/-- C10 witness: the one-value queue with deadline 0 (already expired) still
returns the value 5. -/
theorem expired_deadline_still_receives_witness :
    Q1.Wf ∧ Q1.contents = some 5 :: [] ∧
    Q1.recv_until (some 0) [] (0 + 1) = .ok { Q1 with head := Q1.head + 1 } (some 5) := by
  have h := expired_deadline_still_receives Q1 5 [] (by decide) (by decide) 0 [] 0
  exact ⟨by decide, by decide, h⟩

end Crossbeam
